import Mathlib

/-!
Verification of the overlay composition and interaction engine
(`CanvasStage` and `tools.ts`) of the face-fun-studio repository.

Shallow embedding conventions:
* JavaScript numbers are modelled as exact rationals (`ℚ`).
* JavaScript truthiness of an optional string (`undefined` and `""` are
  falsy) is modelled by `truthy`.
* `pickOverlay` in the source compares `Math.sqrt(dx*dx+dy*dy)` values
  against each other and against the literal `120`.  Since `Math.sqrt` is
  strictly monotone on nonnegative reals, both comparisons coincide with
  the corresponding comparisons of the squared distances; the embedding
  therefore works with squared Euclidean distances (`distSq`) and the
  squared threshold `120^2`, which keeps every definition computable.
-/

/-- `Math.max` on two rationals (kept as an explicit comparison so that it
evaluates by kernel reduction). -/
def jmax (a b : ℚ) : ℚ := if a ≤ b then b else a

/-- `Math.min` on two rationals. -/
def jmin (a b : ℚ) : ℚ := if a ≤ b then a else b

/-- `clamp` from `src/editor/tools.ts`:
`Math.max(min, Math.min(max, n))` (parameters renamed `lo`, `hi`). -/
def clamp (n lo hi : ℚ) : ℚ := jmax lo (jmin hi n)

/-- `OverlayKind` from `src/editor/types.ts`. -/
inductive OverlayKind
  | image
  | text
  deriving DecidableEq, Repr

/-- `OverlayItem` from `src/editor/types.ts`.  Optional fields `src` and
`text` become `Option String`. -/
structure OverlayItem where
  id : String
  kind : OverlayKind
  x : ℚ
  y : ℚ
  scale : ℚ
  rotation : ℚ
  src : Option String := none
  text : Option String := none
  deriving DecidableEq, Repr

/-- JavaScript truthiness of an optional string: `undefined` and the empty
string are falsy, every other string is truthy. -/
def truthy : Option String → Bool
  | none => false
  | some s => !(s == "")

/-- Squared Euclidean distance from the pointer `(x, y)` to an overlay's
anchor, the quantity whose square root the loop body of `pickOverlay`
computes (`dx = o.x - x`, `dy = o.y - y`, `dist = sqrt (dx*dx + dy*dy)`). -/
def distSq (o : OverlayItem) (x y : ℚ) : ℚ :=
  (o.x - x) * (o.x - x) + (o.y - y) * (o.y - y)

/-- The body of the running-minimum loop of `pickOverlay`:
`if (!best || dist < best.dist) best = { id, dist }` (distances represented
squared, see the file header). -/
def pickStep (x y : ℚ) (best : Option (String × ℚ)) (o : OverlayItem) :
    Option (String × ℚ) :=
  let d := distSq o x y
  match best with
  | none => some (o.id, d)
  | some b => if d < b.2 then some (o.id, d) else some b

/-- The running-minimum loop of `pickOverlay`: `best` starts as `null` and
`pickStep` is applied to each overlay in order. -/
def pickLoop (overlays : List OverlayItem) (x y : ℚ) : Option (String × ℚ) :=
  overlays.foldl (pickStep x y) none

/-- `pickOverlay` from `CanvasStage`: empty collection yields `null`;
otherwise the running minimum is compared against the threshold
(`best.dist < 120`, squared here) and the best id is returned when it is
strictly inside the threshold. -/
def pickOverlay (overlays : List OverlayItem) (x y : ℚ) : Option String :=
  if overlays.length = 0 then none
  else
    match pickLoop overlays x y with
    | none => none
    | some b => if b.2 < 120 * 120 then some b.1 else none

/-- Recursive characterisation of the running-minimum loop: the first
overlay attaining the minimal (squared) distance, used to reason about
`pickLoop` by structural induction. -/
def pickFirstMin (x y : ℚ) : List OverlayItem → Option (String × ℚ)
  | [] => none
  | o :: rest =>
    match pickFirstMin x y rest with
    | none => some (o.id, distSq o x y)
    | some b => if b.2 < distSq o x y then some b else some (o.id, distSq o x y)

/-- Combination of an accumulator with a candidate result, as the
running-minimum loop performs it: the candidate wins only when strictly
closer.  Used to state the fold invariant of `pickLoop`. -/
def pickAcc (b : String × ℚ) : Option (String × ℚ) → String × ℚ
  | none => b
  | some m => if m.2 < b.2 then m else b

/-- The drag state held by `CanvasStage` while dragging:
`{ id, offsetX, offsetY }`. -/
structure DragState where
  id : String
  offsetX : ℚ
  offsetY : ℚ
  deriving DecidableEq, Repr

/-- `onPointerDown` from `CanvasStage`, returning the new selection (first
component, always set to the hit-test result) and the new drag state
(second component; `none` means the drag state is left unchanged, as the
handler returns early).  The `if (!id) return` truthiness test also fails
for an empty-string id. -/
def onPointerDown (overlays : List OverlayItem) (px py : ℚ) :
    Option String × Option DragState :=
  match pickOverlay overlays px py with
  | none => (none, none)
  | some id =>
    if id = "" then (some id, none)
    else
      match overlays.find? (fun o => o.id == id) with
      | none => (some id, none)
      | some o => (some id, some ⟨id, px - o.x, py - o.y⟩)

/-- `onPointerMove` from `CanvasStage`: without a drag state the collection
is untouched; otherwise the overlay whose id matches the drag id is moved to
`pointer − offset` and every other overlay is returned unchanged. -/
def onPointerMove (drag : Option DragState) (px py : ℚ)
    (overlays : List OverlayItem) : List OverlayItem :=
  match drag with
  | none => overlays
  | some d =>
    overlays.map fun o =>
      if o.id = d.id then { o with x := px - d.offsetX, y := py - d.offsetY }
      else o

/-- `Math.sign`, restricted to rationals. -/
def jsign (q : ℚ) : ℚ :=
  if 0 < q then 1 else if q < 0 then -1 else 0

/-- `onWheel` from `CanvasStage`.  `selectedId` is `null` or an id; the
`if (!selectedId) return` truthiness test also fails for the empty string.
`delta = Math.sign(e.deltaY)`; with the shift modifier the rotation changes
by `delta * 0.08`, otherwise the scale is clamped via `clamp(scale *
(delta > 0 ? 0.92 : 1.08), 0.2, 4)`.  Only the selected overlay changes. -/
def onWheel (selectedId : Option String) (shiftKey : Bool) (deltaY : ℚ)
    (overlays : List OverlayItem) : List OverlayItem :=
  match selectedId with
  | none => overlays
  | some sel =>
    if sel = "" then overlays
    else
      let delta := jsign deltaY
      overlays.map fun o =>
        if o.id ≠ sel then o
        else if shiftKey then { o with rotation := o.rotation + delta * (8/100) }
        else
          { o with
            scale := clamp (o.scale * (if 0 < delta then 92/100 else 108/100))
              (2/10) 4 }

/-- The scale update performed by one non-modifier wheel tick with positive
delta sign ("zoom out"): `clamp(s * 0.92, 0.2, 4)`. -/
def zoomOut (s : ℚ) : ℚ := clamp (s * (92/100)) (2/10) 4

/-- The scale update performed by one non-modifier wheel tick with
non-positive delta sign ("zoom in"): `clamp(s * 1.08, 0.2, 4)`. -/
def zoomIn (s : ℚ) : ℚ := clamp (s * (108/100)) (2/10) 4

/-- A decoded image (`HTMLImageElement` after a successful load), reduced to
the attributes the engine reads: its natural dimensions. -/
structure Bitmap where
  naturalWidth : ℚ
  naturalHeight : ℚ
  deriving DecidableEq, Repr

/-! ### Overlay image loading (the `overlays` effect, lines 54–82)

The resolved-bitmap cache (`overlayImgs`, a `Record<string,
HTMLImageElement>`) is modelled as an association list keyed by overlay id;
`decode` models the platform's image decoder (`loadImage`), giving each
source string a fixed success/failure outcome.  `Promise.all` either
yields every decoded pair or rejects as soon as any constituent decode
rejects; `decodeAll` mirrors that all-or-nothing contract.  The
`.catch(() => void 0)` on the effect body swallows the rejection, leaving
the cache untouched. -/

/-- `next[id] = img` on a `Record`: replace an existing entry for the key,
otherwise append a fresh one. -/
def cacheInsert (c : List (String × Bitmap)) (id : String) (b : Bitmap) :
    List (String × Bitmap) :=
  if c.any (fun p => p.1 == id) then
    c.map (fun p => if p.1 = id then (id, b) else p)
  else c ++ [(id, b)]

/-- `entries`: image-kind overlays with a truthy `src`, as `(id, src)`
pairs. -/
def entriesOf (overlays : List OverlayItem) : List (String × String) :=
  (overlays.filter (fun o => o.kind == OverlayKind.image && truthy o.src)).map
    (fun o => (o.id, o.src.getD ""))

/-- `needed`: the entries whose id has no cached bitmap yet
(`!overlayImgs[id]`). -/
def neededOf (overlays : List OverlayItem) (cache : List (String × Bitmap)) :
    List (String × String) :=
  (entriesOf overlays).filter (fun p => (cache.lookup p.1).isNone)

/-- `Promise.all(needed.map(async ([id, src]) => [id, await loadImage(src)]))`:
every decode must succeed to obtain the list of pairs; any failure rejects
the whole batch. -/
def decodeAll (decode : String → Except Unit Bitmap) :
    List (String × String) → Except Unit (List (String × Bitmap))
  | [] => .ok []
  | p :: rest =>
    match decode p.2 with
    | .error e => .error e
    | .ok b =>
      match decodeAll decode rest with
      | .error e => .error e
      | .ok pairs => .ok ((p.1, b) :: pairs)

/-- One run of the overlay-image load effect: compute `needed`; if empty,
return with the cache untouched; otherwise await all decodes and merge the
pairs into the cache (`setOverlayImgs(prev => ...)`), or — when any decode
fails — fall into `.catch(() => void 0)` and leave the cache untouched. -/
def overlayEffect (decode : String → Except Unit Bitmap)
    (overlays : List OverlayItem) (cache : List (String × Bitmap)) :
    List (String × Bitmap) :=
  if neededOf overlays cache = [] then cache
  else
    match decodeAll decode (neededOf overlays cache) with
    | .ok pairs => pairs.foldl (fun c pb => cacheInsert c pb.1 pb.2) cache
    | .error _ => cache

/-! ### Base image loading (the `baseImageUrl` effect, lines 38–51)

Modelled as a small event machine.  Each change of `baseImageUrl` re-runs
the effect; the cleanup of the previous run sets that run's `cancelled`
flag, so a run is uncancelled exactly when it is the latest one.  Runs are
numbered from 1; `current` is the number of the latest run.  A decode
completion for run `r` applies `setBaseImg(img)` only when `r` is still
current (`if (!cancelled)`), but a decode *failure* lands in
`.catch(() => setBaseImg(null))`, which does not consult the flag. -/

/-- Outcome of the asynchronous `loadImage` of one effect run. -/
inductive BaseOutcome
  | ok (b : Bitmap)
  | err
  deriving DecidableEq, Repr

/-- Observable events of the base-image effect: a change of
`baseImageUrl`, or the completion of run `r`'s decode. -/
inductive BaseEvent
  | change (url : Option String)
  | complete (r : ℕ) (out : BaseOutcome)
  deriving DecidableEq, Repr

/-- State of the base-image effect: the number of effect runs so far and
the `baseImg` slot. -/
structure BaseState where
  current : ℕ
  baseImg : Option Bitmap
  deriving DecidableEq, Repr

/-- One step of the base-image effect machine (see the section header). -/
def baseStep (s : BaseState) : BaseEvent → BaseState
  | .change url =>
    let s := { s with current := s.current + 1 }
    if truthy url then s else { s with baseImg := none }
  | .complete r out =>
    match out with
    | .ok b => if r = s.current then { s with baseImg := some b } else s
    | .err => { s with baseImg := none }

/-- Run the base-image effect machine from the initial state
(`useState(null)`, no effect run yet). -/
def baseRun (evs : List BaseEvent) : BaseState :=
  evs.foldl baseStep ⟨0, none⟩

/-! ### Render pipeline (the draw effect, lines 92–169)

The 2D context is modelled symbolically: the current transform is the list
of transform operations applied so far, `save`/`restore` maintain the
stack, and each painting call appends a `DrawCmd` tagged with the transform
in force.  The command list order is the paint order (later commands paint
on top).  Style state (`fillStyle`, `font`, `textAlign`, `textBaseline`,
`strokeStyle`, `lineWidth`) is not tracked, as no claim depends on it. -/

/-- A transform operation of the 2D context. -/
inductive TOp
  | translate (x y : ℚ)
  | rotate (angle : ℚ)
  | scale (sx sy : ℚ)
  deriving DecidableEq, Repr

/-- A painting command, tagged with the transform in force when issued. -/
inductive DrawCmd
  | fillRect (tf : List TOp) (x y w h : ℚ)
  | drawImage (bmp : Bitmap) (tf : List TOp) (x y w h : ℚ)
  | strokeRect (tf : List TOp) (x y w h : ℚ)
  | fillText (s : String) (tf : List TOp) (x y : ℚ)
  deriving DecidableEq, Repr

/-- The transform a painting command was issued under. -/
def DrawCmd.tf : DrawCmd → List TOp
  | .fillRect t _ _ _ _ => t
  | .drawImage _ t _ _ _ _ => t
  | .strokeRect t _ _ _ _ => t
  | .fillText _ t _ _ => t

/-- The symbolic 2D context: current transform, the `save` stack, and the
commands painted so far (in paint order). -/
structure Ctx where
  tf : List TOp
  stack : List (List TOp)
  cmds : List DrawCmd
  deriving DecidableEq, Repr

def Ctx.save (c : Ctx) : Ctx := { c with stack := c.tf :: c.stack }

/-- `ctx.restore()`: pop the saved transform; with an empty stack it is a
no-op, as on a real 2D context. -/
def Ctx.restore (c : Ctx) : Ctx :=
  match c.stack with
  | [] => c
  | t :: rest => { c with tf := t, stack := rest }

def Ctx.translate (c : Ctx) (x y : ℚ) : Ctx :=
  { c with tf := c.tf ++ [TOp.translate x y] }

def Ctx.rotate (c : Ctx) (angle : ℚ) : Ctx :=
  { c with tf := c.tf ++ [TOp.rotate angle] }

def Ctx.scale (c : Ctx) (sx sy : ℚ) : Ctx :=
  { c with tf := c.tf ++ [TOp.scale sx sy] }

def Ctx.emit (c : Ctx) (cmd : DrawCmd) : Ctx := { c with cmds := c.cmds ++ [cmd] }

/-- The body of the overlay render loop for one overlay `o` (lines
133–168): `save`, establish the local frame (`translate`, `rotate`,
`scale`), paint the kind-specific visuals plus the selection outline, then
`restore`. -/
def drawOneOverlay (cache : List (String × Bitmap)) (sel : Option String)
    (c : Ctx) (o : OverlayItem) : Ctx :=
  let c := c.save
  let c := c.translate o.x o.y
  let c := c.rotate o.rotation
  let c := c.scale o.scale o.scale
  let c :=
    if o.kind == OverlayKind.image && truthy o.src then
      match cache.lookup o.id with
      | some img =>
        let ow := img.naturalWidth
        let oh := img.naturalHeight
        let c := c.emit (.drawImage img c.tf (-ow / 2) (-oh / 2) ow oh)
        if sel = some o.id then c.emit (.strokeRect c.tf (-ow / 2) (-oh / 2) ow oh)
        else c
      | none => c
    else if o.kind == OverlayKind.text && truthy o.text then
      let c := c.emit (.fillText (o.text.getD "") c.tf 0 0)
      if sel = some o.id then c.emit (.strokeRect c.tf (-150) (-35) 300 70)
      else c
    else c
  c.restore

/-- The overlay render loop: `for (const o of overlays) { ... }`. -/
def drawOverlays (cache : List (String × Bitmap)) (sel : Option String)
    (c : Ctx) (overlays : List OverlayItem) : Ctx :=
  overlays.foldl (drawOneOverlay cache sel) c

/-- The commands one overlay contributes when the loop body starts from
transform `tf` — the denotation `drawOneOverlay` is proved to produce. -/
def overlayCmds (cache : List (String × Bitmap)) (sel : Option String)
    (tf : List TOp) (o : OverlayItem) : List DrawCmd :=
  let tfo := tf ++ [TOp.translate o.x o.y, TOp.rotate o.rotation,
    TOp.scale o.scale o.scale]
  if o.kind == OverlayKind.image && truthy o.src then
    match cache.lookup o.id with
    | some img =>
      let ow := img.naturalWidth
      let oh := img.naturalHeight
      DrawCmd.drawImage img tfo (-ow / 2) (-oh / 2) ow oh ::
        (if sel = some o.id then [DrawCmd.strokeRect tfo (-ow / 2) (-oh / 2) ow oh]
         else [])
    | none => []
  else if o.kind == OverlayKind.text && truthy o.text then
    DrawCmd.fillText (o.text.getD "") tfo 0 0 ::
      (if sel = some o.id then [DrawCmd.strokeRect tfo (-150) (-35) 300 70]
       else [])
  else []

/-! ### Cover-fit placement of the base image (lines 114–122) -/

/-- The quantities computed by the cover-fit branch, in source order. -/
structure CoverFit where
  scale : ℚ
  dw : ℚ
  dh : ℚ
  dx : ℚ
  dy : ℚ
  deriving DecidableEq, Repr

/-- The cover-fit branch of the draw effect: `scale = Math.max(w / iw,
h / ih)`, `dw = iw * scale`, `dh = ih * scale`, `dx = (w - dw) / 2`,
`dy = (h - dh) / 2`. -/
def coverFit (iw ih w h : ℚ) : CoverFit :=
  let scale := jmax (w / iw) (h / ih)
  let dw := iw * scale
  let dh := ih * scale
  let dx := (w - dw) / 2
  let dy := (h - dh) / 2
  ⟨scale, dw, dh, dx, dy⟩

/-! ### Concrete data used by witnesses and counterexamples -/

/-- A demo image overlay at `(10, 20)`. -/
def demoA : OverlayItem := ⟨"a", .image, 10, 20, 1, 0, some "sA", none⟩

/-- A second demo image overlay at `(30, 40)`. -/
def demoB : OverlayItem := ⟨"b", .image, 30, 40, 1, 0, some "sB", none⟩

/-- A demo overlay whose anchor is at distance exactly `120` from the
origin. -/
def demoFar : OverlayItem := ⟨"far", .image, 120, 0, 1, 0, some "sF", none⟩

/-- A demo drag state whose id matches no demo overlay. -/
def demoGone : DragState := ⟨"gone", 1, 2⟩

/-- A demo text overlay with non-empty text. -/
def demoText : OverlayItem := ⟨"t", .text, 300, 80, 1, 0, none, some "LOL"⟩

/-- A demo text overlay whose text is the empty string. -/
def demoEmptyText : OverlayItem := ⟨"e", .text, 5, 6, 1, 0, none, some ""⟩

/-- Two demo overlays at the same anchor, to exercise hit-test ties. -/
def demoO1 : OverlayItem := ⟨"p1", .image, 0, 0, 1, 0, none, none⟩

/-- See `demoO1`. -/
def demoO2 : OverlayItem := ⟨"p2", .image, 0, 0, 1, 0, none, none⟩

/-- A demo decoded bitmap. -/
def bmA : Bitmap := ⟨3, 5⟩

/-- Another demo decoded bitmap. -/
def bmB : Bitmap := ⟨7, 9⟩

/-- A demo decoder: source `"sA"` decodes to `bmA`, everything else
fails. -/
def demoDecode : String → Except Unit Bitmap :=
  fun s => if s = "sA" then .ok bmA else .error ()

/-! ### Verified properties -/

theorem jmax_eq_max (a b : ℚ) : jmax a b = max a b := by
  unfold jmax
  split
  · exact (max_eq_right (by assumption)).symm
  · exact (max_eq_left (le_of_not_le (by assumption))).symm

theorem jmin_eq_min (a b : ℚ) : jmin a b = min a b := by
  unfold jmin
  split
  · exact (min_eq_left (by assumption)).symm
  · exact (min_eq_right (le_of_not_le (by assumption))).symm

theorem clamp_eq (n lo hi : ℚ) : clamp n lo hi = max lo (min hi n) := by
  rw [clamp, jmax_eq_max, jmin_eq_min]

/-- **C9** — Drag of a vanished overlay is harmless: a pointer-move whose
drag state holds an id not present in the collection returns the collection
element-wise unchanged (the `prev.map` hits its identity branch
everywhere). -/
theorem move_vanished_id (d : DragState) (px py : ℚ)
    (ovs : List OverlayItem) (h : ∀ o ∈ ovs, o.id ≠ d.id) :
    onPointerMove (some d) px py ovs = ovs := by
  have hmap : onPointerMove (some d) px py ovs
      = ovs.map (fun o => if o.id = d.id then
          { o with x := px - d.offsetX, y := py - d.offsetY } else o) := rfl
  have harg : ∀ o ∈ ovs,
      (if o.id = d.id then
        { o with x := px - d.offsetX, y := py - d.offsetY } else o) = id o :=
    fun o ho => by rw [if_neg (h o ho)]; rfl
  rw [hmap, List.map_congr_left harg, List.map_id]

theorem move_vanished_id_witness :
    (∀ o ∈ [demoA, demoB], o.id ≠ demoGone.id)
    ∧ onPointerMove (some demoGone) 5 6 [demoA, demoB] = [demoA, demoB] :=
  ⟨by decide, move_vanished_id demoGone 5 6 [demoA, demoB] (by decide)⟩

/-- **C4** — Drag invariant: when `onPointerDown` at `(px0, py0)` starts a
drag, the grab offset recorded in the drag state is `pointer − overlay
anchor` for the overlay found by the hit-test; the drag state is never
rewritten during moves, and each `onPointerMove` with that state sets the
dragged overlay's position to `pointer − offset` while returning every
other overlay unchanged at its original index (so the order is
preserved). -/
theorem drag_offset_invariant (overlays ovs : List OverlayItem)
    (px0 py0 px py : ℚ) (id : String) (d : DragState) (i : ℕ)
    (o : OverlayItem)
    (hdown : onPointerDown overlays px0 py0 = (some id, some d))
    (ho : ovs[i]? = some o) :
    (∃ q ∈ overlays, q.id = id ∧ d = ⟨id, px0 - q.x, py0 - q.y⟩)
    ∧ (onPointerMove (some d) px py ovs).length = ovs.length
    ∧ (onPointerMove (some d) px py ovs)[i]? =
        some (if o.id = d.id then
          { o with x := px - d.offsetX, y := py - d.offsetY } else o) := by
  refine ⟨?_, ?_, ?_⟩
  · unfold onPointerDown at hdown
    rcases hpick : pickOverlay overlays px0 py0 with _ | id0 <;>
      rw [hpick] at hdown
    · simp at hdown
    · dsimp at hdown
      split at hdown
      · simp at hdown
      · rcases hfind : overlays.find? (fun o => o.id == id0) with _ | q <;>
          rw [hfind] at hdown
        · simp at hdown
        · obtain ⟨h1, h2⟩ := Prod.mk.injEq .. ▸ hdown
          obtain ⟨rfl⟩ : id0 = id := by simpa using h1
          refine ⟨q, List.mem_of_find?_eq_some hfind, ?_, ?_⟩
          · simpa using List.find?_some hfind
          · simpa using h2.symm
  · simp [onPointerMove]
  · simp [onPointerMove, List.getElem?_map, ho]

theorem drag_offset_invariant_witness :
    (onPointerDown [demoA] 12 22 = (some "a", some ⟨"a", 2, 2⟩))
    ∧ ([demoA][0]? = some demoA)
    ∧ ((∃ q ∈ [demoA], q.id = "a"
          ∧ (⟨"a", 2, 2⟩ : DragState) = ⟨"a", 12 - q.x, 22 - q.y⟩)
        ∧ (onPointerMove (some ⟨"a", 2, 2⟩) 100 200 [demoA]).length
            = [demoA].length
        ∧ (onPointerMove (some ⟨"a", 2, 2⟩) 100 200 [demoA])[0]? =
            some (if demoA.id = "a" then
              { demoA with x := (100 : ℚ) - 2, y := (200 : ℚ) - 2 }
              else demoA)) := by
  have hdown : onPointerDown [demoA] 12 22 = (some "a", some ⟨"a", 2, 2⟩) := by
    norm_num +decide [onPointerDown, pickOverlay, pickLoop, pickStep,
      distSq, demoA, List.find?]
  exact ⟨hdown, rfl,
    drag_offset_invariant [demoA] [demoA] 12 22 100 200 "a" ⟨"a", 2, 2⟩ 0
      demoA hdown rfl⟩

/-- **C7** — Cover-fit placement: the computed scale is
`max(w / iw, h / ih)`; the bitmap is drawn centered
(`dx = (w − dw) / 2`, `dy = (h − dh) / 2`); the drawn extent covers the
viewport on both axes and equals it exactly on at least one axis. -/
theorem coverFit_spec (iw ih w h : ℚ) (hiw : 0 < iw) (hih : 0 < ih) :
    (coverFit iw ih w h).scale = max (w / iw) (h / ih)
    ∧ (coverFit iw ih w h).dw = iw * (coverFit iw ih w h).scale
    ∧ (coverFit iw ih w h).dh = ih * (coverFit iw ih w h).scale
    ∧ (coverFit iw ih w h).dx = (w - (coverFit iw ih w h).dw) / 2
    ∧ (coverFit iw ih w h).dy = (h - (coverFit iw ih w h).dh) / 2
    ∧ w ≤ (coverFit iw ih w h).dw
    ∧ h ≤ (coverFit iw ih w h).dh
    ∧ ((coverFit iw ih w h).dw = w ∨ (coverFit iw ih w h).dh = h) := by
  have hsc : (coverFit iw ih w h).scale = max (w / iw) (h / ih) := by
    simp [coverFit, jmax_eq_max]
  have hdw : (coverFit iw ih w h).dw = iw * (coverFit iw ih w h).scale := by
    simp [coverFit]
  have hdh : (coverFit iw ih w h).dh = ih * (coverFit iw ih w h).scale := by
    simp [coverFit]
  have hww : iw * (w / iw) = w := by
    rw [mul_comm]; exact div_mul_cancel₀ w hiw.ne'
  have hhh : ih * (h / ih) = h := by
    rw [mul_comm]; exact div_mul_cancel₀ h hih.ne'
  refine ⟨hsc, hdw, hdh, by simp [coverFit], by simp [coverFit], ?_, ?_, ?_⟩
  · rw [hdw, hsc]
    calc w = iw * (w / iw) := hww.symm
    _ ≤ iw * max (w / iw) (h / ih) :=
      mul_le_mul_of_nonneg_left (le_max_left _ _) hiw.le
  · rw [hdh, hsc]
    calc h = ih * (h / ih) := hhh.symm
    _ ≤ ih * max (w / iw) (h / ih) :=
      mul_le_mul_of_nonneg_left (le_max_right _ _) hih.le
  · rcases le_total (w / iw) (h / ih) with hc | hc
    · right
      rw [hdh, hsc, max_eq_right hc, hhh]
    · left
      rw [hdw, hsc, max_eq_left hc, hww]

theorem coverFit_spec_witness :
    ((0 : ℚ) < 2 ∧ (0 : ℚ) < 1)
    ∧ ((coverFit 2 1 4 4).scale = max ((4 : ℚ) / 2) ((4 : ℚ) / 1)
        ∧ (coverFit 2 1 4 4).dw = 2 * (coverFit 2 1 4 4).scale
        ∧ (coverFit 2 1 4 4).dh = 1 * (coverFit 2 1 4 4).scale
        ∧ (coverFit 2 1 4 4).dx = ((4 : ℚ) - (coverFit 2 1 4 4).dw) / 2
        ∧ (coverFit 2 1 4 4).dy = ((4 : ℚ) - (coverFit 2 1 4 4).dh) / 2
        ∧ (4 : ℚ) ≤ (coverFit 2 1 4 4).dw
        ∧ (4 : ℚ) ≤ (coverFit 2 1 4 4).dh
        ∧ ((coverFit 2 1 4 4).dw = 4 ∨ (coverFit 2 1 4 4).dh = 4)) :=
  ⟨by norm_num, coverFit_spec 2 1 4 4 (by norm_num) (by norm_num)⟩

/-- The event trace exhibiting the stale-failure defect: base identifier
`"A"` is requested (run 1), superseded by `"B"` (run 2); run 2's decode
succeeds with `bmB`, then run 1's decode fails. -/
def staleTrace : List BaseEvent :=
  [.change (some "A"), .change (some "B"),
   .complete 2 (.ok bmB), .complete 1 .err]

/-- **C1** — evaluation of the base-image effect at the failing trace:
after `B`'s decode is accepted the base slot holds `bmB`, but when the
superseded run `A`'s decode then fails, the `.catch(() => setBaseImg(null))`
handler — which never consults the `cancelled` flag — clears the slot, so
the stale failure outcome of `A` is applied over `B`'s result. -/
theorem base_stale_failure_applied :
    (baseRun (staleTrace.take 3)).baseImg = some bmB
    ∧ (baseRun staleTrace).baseImg = none := by
  constructor <;> rfl



theorem beq_comm_false (a b : String) (h : (a == b) = false) :
    (b == a) = false := by
  rw [beq_eq_false_iff_ne] at h ⊢
  exact fun e => h e.symm

theorem lookup_cons_self (k : String) (p : String × Bitmap)
    (l : List (String × Bitmap)) (h : (k == p.1) = true) :
    (p :: l).lookup k = some p.2 := by
  rw [List.lookup_cons, h]

theorem lookup_cons_ne (k : String) (p : String × Bitmap)
    (l : List (String × Bitmap)) (h : (k == p.1) = false) :
    (p :: l).lookup k = l.lookup k := by
  rw [List.lookup_cons, h]

theorem lookup_map_update (c : List (String × Bitmap)) (k : String)
    (b : Bitmap) (hany : c.any (fun p => p.1 == k) = true) :
    (c.map (fun p => if p.1 = k then (k, b) else p)).lookup k = some b := by
  induction c with
  | nil => simp at hany
  | cons p rest ih =>
    rw [List.any_cons, Bool.or_eq_true] at hany
    rw [List.map_cons]
    by_cases hp : p.1 = k
    · rw [if_pos hp]
      exact lookup_cons_self k (k, b) _ (beq_self_eq_true k)
    · rw [if_neg hp]
      have hk : (k == p.1) = false :=
        beq_comm_false _ _ (beq_eq_false_iff_ne.mpr hp)
      have hrest : rest.any (fun p => p.1 == k) = true := by
        rcases hany with h1 | h2
        · exact absurd (beq_iff_eq.mp h1) hp
        · exact h2
      rw [lookup_cons_ne k p _ hk]
      exact ih hrest

theorem lookup_append_single (c : List (String × Bitmap)) (k : String)
    (b : Bitmap) (h : c.any (fun p => p.1 == k) = false) :
    (c ++ [(k, b)]).lookup k = some b := by
  induction c with
  | nil => exact lookup_cons_self k (k, b) _ (beq_self_eq_true k)
  | cons p rest ih =>
    rw [List.any_cons, Bool.or_eq_false_iff] at h
    have hk : (k == p.1) = false := beq_comm_false _ _ h.1
    rw [List.cons_append, lookup_cons_ne k p _ hk]
    exact ih h.2

theorem lookup_cacheInsert_self (c : List (String × Bitmap)) (k : String)
    (b : Bitmap) : (cacheInsert c k b).lookup k = some b := by
  unfold cacheInsert
  split
  · exact lookup_map_update c k b (by assumption)
  · refine lookup_append_single c k b ?_
    rename_i hany
    revert hany
    cases c.any (fun p => p.1 == k) <;> simp

theorem lookup_map_update_other (c : List (String × Bitmap))
    (k k' : String) (b : Bitmap) (h : k' ≠ k) :
    (c.map (fun p => if p.1 = k then (k, b) else p)).lookup k'
      = c.lookup k' := by
  induction c with
  | nil => rfl
  | cons p rest ih =>
    rw [List.map_cons]
    by_cases hp : p.1 = k
    · rw [if_pos hp]
      have hk : (k' == k) = false := beq_eq_false_iff_ne.mpr h
      have hk2 : (k' == p.1) = false := by rw [hp]; exact hk
      rw [lookup_cons_ne k' (k, b) _ hk, lookup_cons_ne k' p _ hk2]
      exact ih
    · rw [if_neg hp]
      by_cases hp' : k' = p.1
      · have he : (k' == p.1) = true := beq_iff_eq.mpr hp'
        rw [lookup_cons_self k' p _ he, lookup_cons_self k' p _ he]
      · have he : (k' == p.1) = false := beq_eq_false_iff_ne.mpr hp'
        rw [lookup_cons_ne k' p _ he, lookup_cons_ne k' p _ he]
        exact ih

theorem lookup_append_single_other (c : List (String × Bitmap))
    (k k' : String) (b : Bitmap) (h : k' ≠ k) :
    (c ++ [(k, b)]).lookup k' = c.lookup k' := by
  induction c with
  | nil =>
    rw [List.nil_append,
      lookup_cons_ne k' (k, b) _ (beq_eq_false_iff_ne.mpr h)]
  | cons p rest ih =>
    rw [List.cons_append]
    by_cases hp' : k' = p.1
    · have he : (k' == p.1) = true := beq_iff_eq.mpr hp'
      rw [lookup_cons_self k' p _ he, lookup_cons_self k' p _ he]
    · have he : (k' == p.1) = false := beq_eq_false_iff_ne.mpr hp'
      rw [lookup_cons_ne k' p _ he, lookup_cons_ne k' p _ he]
      exact ih

theorem lookup_cacheInsert_other (c : List (String × Bitmap))
    (k k' : String) (b : Bitmap) (h : k' ≠ k) :
    (cacheInsert c k b).lookup k' = c.lookup k' := by
  unfold cacheInsert
  split
  · exact lookup_map_update_other c k k' b h
  · exact lookup_append_single_other c k k' b h

theorem lookup_foldl_insert_not_mem (pairs : List (String × Bitmap))
    (c : List (String × Bitmap)) (k : String)
    (h : k ∉ pairs.map Prod.fst) :
    (pairs.foldl (fun c pb => cacheInsert c pb.1 pb.2) c).lookup k
      = c.lookup k := by
  induction pairs generalizing c with
  | nil => rfl
  | cons p rest ih =>
    simp only [List.map_cons, List.mem_cons, not_or] at h
    rw [List.foldl_cons, ih _ h.2, lookup_cacheInsert_other _ _ _ _ h.1]

theorem lookup_foldl_insert (pairs : List (String × Bitmap))
    (c : List (String × Bitmap)) (k : String) (b : Bitmap)
    (hmem : (k, b) ∈ pairs) (hnd : (pairs.map Prod.fst).Nodup) :
    (pairs.foldl (fun c pb => cacheInsert c pb.1 pb.2) c).lookup k
      = some b := by
  induction pairs generalizing c with
  | nil => cases hmem
  | cons p rest ih =>
    rw [List.map_cons, List.nodup_cons] at hnd
    rcases List.mem_cons.mp hmem with heq | hmem'
    · subst heq
      rw [List.foldl_cons, lookup_foldl_insert_not_mem rest _ k hnd.1,
        lookup_cacheInsert_self]
    · rw [List.foldl_cons]
      exact ih _ hmem' hnd.2

theorem decodeAll_ok (decode : String → Except Unit Bitmap)
    (l : List (String × String)) (pairs : List (String × Bitmap))
    (h : decodeAll decode l = .ok pairs) :
    pairs.map Prod.fst = l.map Prod.fst
    ∧ ∀ p ∈ l, ∀ b, decode p.2 = .ok b → (p.1, b) ∈ pairs := by
  induction l generalizing pairs with
  | nil =>
    obtain rfl : ([] : List (String × Bitmap)) = pairs := by
      simpa [decodeAll] using h
    exact ⟨rfl, by simp⟩
  | cons p rest ih =>
    rw [decodeAll] at h
    rcases hd : decode p.2 with e | b <;> rw [hd] at h
    · cases h
    · rcases hr : decodeAll decode rest with e | ps <;> rw [hr] at h
      · cases h
      · obtain rfl : (p.1, b) :: ps = pairs := by simpa using h
        obtain ⟨ihm, ihmem⟩ := ih ps hr
        refine ⟨by simp [ihm], ?_⟩
        intro q hq b' hb'
        rcases List.mem_cons.mp hq with rfl | hq'
        · have hbb : b' = b := by
            rw [hd] at hb'
            exact (Except.ok.injEq .. ▸ hb').symm
          exact hbb ▸ List.mem_cons_self _ _
        · exact List.mem_cons_of_mem _ (ihmem q hq' b' hb')

theorem decodeAll_error (decode : String → Except Unit Bitmap)
    (l : List (String × String))
    (h : ∃ p ∈ l, (decode p.2).isOk = false) :
    ∃ e, decodeAll decode l = .error e := by
  induction l with
  | nil => simp at h
  | cons p rest ih =>
    rw [decodeAll]
    rcases hd : decode p.2 with e | b
    · exact ⟨e, rfl⟩
    · obtain ⟨q, hq, hqe⟩ := h
      rcases List.mem_cons.mp hq with rfl | hq'
      · rw [hd] at hqe
        simp [Except.isOk, Except.toBool] at hqe
      · obtain ⟨e, he⟩ := ih ⟨q, hq', hqe⟩
        rw [he]
        exact ⟨e, rfl⟩

theorem decodeAll_ok_of_all (decode : String → Except Unit Bitmap)
    (l : List (String × String))
    (h : ∀ p ∈ l, (decode p.2).isOk = true) :
    ∃ pairs, decodeAll decode l = .ok pairs := by
  induction l with
  | nil => exact ⟨[], rfl⟩
  | cons p rest ih =>
    have hp := h p (List.mem_cons_self p rest)
    rcases hd : decode p.2 with e | b
    · rw [hd] at hp
      simp [Except.isOk, Except.toBool] at hp
    · obtain ⟨ps, hps⟩ := ih (fun q hq => h q (List.mem_cons_of_mem _ hq))
      exact ⟨(p.1, b) :: ps, by rw [decodeAll, hd, hps]⟩

theorem needed_keys_nodup (overlays : List OverlayItem)
    (cache : List (String × Bitmap))
    (hnd : (overlays.map OverlayItem.id).Nodup) :
    ((neededOf overlays cache).map Prod.fst).Nodup := by
  have h1 : List.Sublist ((neededOf overlays cache).map Prod.fst)
      ((entriesOf overlays).map Prod.fst) :=
    (List.filter_sublist _).map _
  have h2 : List.Sublist ((entriesOf overlays).map Prod.fst)
      (overlays.map OverlayItem.id) := by
    unfold entriesOf
    rw [List.map_map]
    exact (List.filter_sublist _).map _
  exact (h1.trans h2).nodup hnd

/-- **C2 (amended)** — Batch overlay decoding is all-or-nothing: when any
overlay of the `needed` batch fails to decode, the whole batch is discarded
(`Promise.all` rejects into `.catch(() => void 0)`) and the cache is
returned unchanged — including the ids whose own decode succeeded; only
when every decode of the batch succeeds is the batch merged into the
cache, and then each decoded pair is retrievable from the result. -/
theorem overlayEffect_batch (decode : String → Except Unit Bitmap)
    (overlays : List OverlayItem) (cache : List (String × Bitmap))
    (p : String × String) (b : Bitmap)
    (hnd : (overlays.map OverlayItem.id).Nodup)
    (hp : p ∈ neededOf overlays cache)
    (hb : decode p.2 = .ok b) :
    ((∃ q ∈ neededOf overlays cache, (decode q.2).isOk = false) →
        overlayEffect decode overlays cache = cache)
    ∧ ((∀ q ∈ neededOf overlays cache, (decode q.2).isOk = true) →
        (overlayEffect decode overlays cache).lookup p.1 = some b) := by
  have hne : neededOf overlays cache ≠ [] := by
    intro hnil
    rw [hnil] at hp
    cases hp
  constructor
  · intro hex
    obtain ⟨e, he⟩ := decodeAll_error decode _ hex
    rw [overlayEffect, if_neg hne, he]
  · intro hall
    obtain ⟨pairs, hda⟩ := decodeAll_ok_of_all decode _ hall
    rw [overlayEffect, if_neg hne, hda]
    obtain ⟨hkeys, hmem⟩ := decodeAll_ok decode _ pairs hda
    exact lookup_foldl_insert pairs cache p.1 b (hmem p hp b hb)
      (hkeys ▸ needed_keys_nodup overlays cache hnd)

theorem overlayEffect_batch_witness :
    (([demoA, demoB].map OverlayItem.id).Nodup
      ∧ ("a", "sA") ∈ neededOf [demoA, demoB] []
      ∧ demoDecode "sA" = .ok bmA)
    ∧ (((∃ q ∈ neededOf [demoA, demoB] [], (demoDecode q.2).isOk = false) →
          overlayEffect demoDecode [demoA, demoB] [] = [])
        ∧ ((∀ q ∈ neededOf [demoA, demoB] [],
            (demoDecode q.2).isOk = true) →
          (overlayEffect demoDecode [demoA, demoB] []).lookup "a"
            = some bmA)) :=
  ⟨⟨by decide, by decide, rfl⟩,
    overlayEffect_batch demoDecode [demoA, demoB] [] ("a", "sA") bmA
      (by decide) (by decide) rfl⟩

/-- **C2 (counterexample to the claim as stated)** — in the batch
`[demoA, demoB]` overlay `"a"`'s source decodes successfully while
overlay `"b"`'s fails, yet after the effect runs the cache does not
contain `"a"`: the failure of one overlay's decode discards the whole
batch, so the successfully decoded overlays of the batch are *not*
cached. -/
theorem overlayEffect_failure_not_isolated :
    (demoDecode "sA").isOk = true
    ∧ (demoDecode "sB").isOk = false
    ∧ neededOf [demoA, demoB] [] = [("a", "sA"), ("b", "sB")]
    ∧ (overlayEffect demoDecode [demoA, demoB] []).lookup "a" = none := by
  refine ⟨rfl, rfl, rfl, rfl⟩

theorem pickAcc_some (b m : String × ℚ) :
    pickAcc b (some m) = if m.2 < b.2 then m else b := by
  rw [pickAcc]

theorem pickStep_some (x y : ℚ) (b : String × ℚ) (o : OverlayItem) :
    pickStep x y (some b) o = some (pickAcc b (some (o.id, distSq o x y))) := by
  show (if (o.id, distSq o x y).2 < b.2 then some (o.id, distSq o x y)
    else some b) = _
  rw [pickAcc_some, apply_ite some]

theorem pickFirstMin_cons_none (x y : ℚ) (o : OverlayItem)
    (rest : List OverlayItem) (hm : pickFirstMin x y rest = none) :
    pickFirstMin x y (o :: rest) = some (o.id, distSq o x y) := by
  rw [pickFirstMin, hm]

theorem pickFirstMin_cons_some (x y : ℚ) (o : OverlayItem)
    (rest : List OverlayItem) (m : String × ℚ)
    (hm : pickFirstMin x y rest = some m) :
    pickFirstMin x y (o :: rest)
      = if m.2 < distSq o x y then some m
        else some (o.id, distSq o x y) := by
  rw [pickFirstMin, hm]

theorem pickLoop_acc (x y : ℚ) (l : List OverlayItem) (b : String × ℚ) :
    List.foldl (pickStep x y) (some b) l
      = some (pickAcc b (pickFirstMin x y l)) := by
  induction l generalizing b with
  | nil => rfl
  | cons o rest ih =>
    rw [List.foldl_cons, pickStep_some, ih]
    rcases hm : pickFirstMin x y rest with _ | m
    · rw [pickFirstMin_cons_none x y o rest hm]
      rfl
    · rw [pickFirstMin_cons_some x y o rest m hm,
        apply_ite (pickAcc b)]
      simp only [pickAcc_some, apply_ite Prod.snd]
      split_ifs <;> first | rfl | (exfalso; linarith)

theorem pickLoop_eq_pickFirstMin (x y : ℚ) (l : List OverlayItem) :
    pickLoop l x y = pickFirstMin x y l := by
  cases l with
  | nil => rfl
  | cons o rest =>
    have h0 : pickStep x y none o = some (o.id, distSq o x y) := rfl
    rw [pickLoop, List.foldl_cons, h0, pickLoop_acc]
    rcases hm : pickFirstMin x y rest with _ | m
    · rw [pickFirstMin_cons_none x y o rest hm]
      rfl
    · rw [pickFirstMin_cons_some x y o rest m hm, pickAcc_some,
        apply_ite some]

theorem pickFirstMin_none_iff (x y : ℚ) (l : List OverlayItem) :
    pickFirstMin x y l = none ↔ l = [] := by
  cases l with
  | nil => simp [pickFirstMin]
  | cons o rest =>
    constructor
    · intro h
      exfalso
      rcases hm : pickFirstMin x y rest with _ | m
      · rw [pickFirstMin_cons_none x y o rest hm] at h
        cases h
      · rw [pickFirstMin_cons_some x y o rest m hm] at h
        by_cases hc : m.2 < distSq o x y
        · rw [if_pos hc] at h
          cases h
        · rw [if_neg hc] at h
          cases h
    · intro h
      cases h

theorem pickFirstMin_spec (x y : ℚ) (l : List OverlayItem) (hl : l ≠ []) :
    ∃ id d, pickFirstMin x y l = some (id, d)
      ∧ (∃ o ∈ l, o.id = id ∧ distSq o x y = d)
      ∧ ∀ o ∈ l, d ≤ distSq o x y := by
  induction l with
  | nil => exact absurd rfl hl
  | cons o rest ih =>
    rcases hm : pickFirstMin x y rest with _ | m
    · have hrest : rest = [] := (pickFirstMin_none_iff x y rest).mp hm
      subst hrest
      refine ⟨o.id, distSq o x y, pickFirstMin_cons_none x y o [] hm,
        ⟨o, by simp⟩, ?_⟩
      intro p hp
      rcases List.mem_singleton.mp hp with rfl
      exact le_refl _
    · have hrest : rest ≠ [] := by
        intro h
        rw [(pickFirstMin_none_iff x y rest).mpr h] at hm
        cases hm
      obtain ⟨id, d, hpf, ⟨q, hq, hqid, hqd⟩, hmin⟩ := ih hrest
      have hmd : m = (id, d) := by
        rw [hpf] at hm
        exact (Option.some.injEq .. ▸ hm).symm
      subst hmd
      by_cases hc : d < distSq o x y
      · refine ⟨id, d, ?_, ⟨q, List.mem_cons_of_mem _ hq, hqid, hqd⟩, ?_⟩
        · rw [pickFirstMin_cons_some x y o rest (id, d) hm]
          exact if_pos hc
        · intro p hp
          rcases List.mem_cons.mp hp with rfl | hp'
          · exact hc.le
          · exact hmin p hp'
      · refine ⟨o.id, distSq o x y, ?_, ⟨o, List.mem_cons_self o rest, rfl,
          rfl⟩, ?_⟩
        · rw [pickFirstMin_cons_some x y o rest (id, d) hm]
          exact if_neg hc
        · intro p hp
          rcases List.mem_cons.mp hp with rfl | hp'
          · exact le_refl _
          · exact le_trans (not_lt.mp hc) (hmin p hp')

theorem pickFirstMin_first (x y : ℚ) (l : List OverlayItem) (i : ℕ)
    (oi : OverlayItem) (hi : l[i]? = some oi)
    (hmin : ∀ p ∈ l, distSq oi x y ≤ distSq p x y)
    (hfirst : ∀ k ok, k < i → l[k]? = some ok →
      distSq oi x y < distSq ok x y) :
    pickFirstMin x y l = some (oi.id, distSq oi x y) := by
  induction l generalizing i with
  | nil => simp at hi
  | cons o rest ih =>
    cases i with
    | zero =>
      obtain rfl : o = oi := by simpa using hi
      rcases hm : pickFirstMin x y rest with _ | m
      · exact pickFirstMin_cons_none x y o rest hm
      · have hrest : rest ≠ [] := by
          intro h
          rw [(pickFirstMin_none_iff x y rest).mpr h] at hm
          cases hm
        obtain ⟨id, d, hpf, ⟨q, hq, hqid, hqd⟩, _⟩ :=
          pickFirstMin_spec x y rest hrest
        have hmd : m = (id, d) := by
          rw [hpf] at hm
          exact (Option.some.injEq .. ▸ hm).symm
        have hle : distSq o x y ≤ d := by
          rw [← hqd]
          exact hmin q (List.mem_cons_of_mem _ hq)
        rw [pickFirstMin_cons_some x y o rest m hm]
        refine if_neg ?_
        rw [hmd]
        exact not_lt.mpr hle
    | succ j =>
      have hij : rest[j]? = some oi := by simpa using hi
      have hm := ih j hij
        (fun p hp => hmin p (List.mem_cons_of_mem _ hp))
        (fun k ok hk hok => hfirst (k + 1) ok (Nat.succ_lt_succ hk)
          (by simpa using hok))
      have hhead : distSq oi x y < distSq o x y :=
        hfirst 0 o (Nat.succ_pos j) (by simp)
      rw [pickFirstMin_cons_some x y o rest (oi.id, distSq oi x y) hm]
      exact if_pos hhead

/-- **C3 (amended)** — Hit-test characterisation: with an empty collection
the result is `none`; otherwise a returned id belongs to an overlay of
minimal squared Euclidean distance to the pointer whose distance is
strictly below the 120-pixel threshold, and the result is `none` exactly
when the minimal distance is at least 120 pixels (in particular, at a
minimal distance of exactly 120 pixels no overlay is selected, because the
source compares with strict `<`). -/
theorem pickOverlay_spec (ovs : List OverlayItem) (x y : ℚ)
    (hne : ovs ≠ []) :
    pickOverlay [] x y = none
    ∧ (∀ id, pickOverlay ovs x y = some id →
        ∃ o ∈ ovs, o.id = id ∧ distSq o x y < 120 * 120
          ∧ ∀ p ∈ ovs, distSq o x y ≤ distSq p x y)
    ∧ (pickOverlay ovs x y = none ↔
        ∀ o ∈ ovs, 120 * 120 ≤ distSq o x y) := by
  have hlen : ¬ ovs.length = 0 := by
    simpa [List.length_eq_zero] using hne
  obtain ⟨id, d, hpf, ⟨o, ho, hoid, hod⟩, hmin⟩ :=
    pickFirstMin_spec x y ovs hne
  have hpl : pickLoop ovs x y = some (id, d) :=
    (pickLoop_eq_pickFirstMin x y ovs).trans hpf
  have hpo : pickOverlay ovs x y
      = if d < 120 * 120 then some id else none := by
    rw [pickOverlay, if_neg hlen, hpl]
  refine ⟨rfl, ?_, ?_⟩
  · intro id' h
    rw [hpo] at h
    by_cases hd : d < 120 * 120
    · rw [if_pos hd] at h
      obtain rfl : id = id' := by simpa using h
      exact ⟨o, ho, hoid, hod ▸ hd, fun p hp => hod ▸ hmin p hp⟩
    · rw [if_neg hd] at h
      cases h
  · rw [hpo]
    constructor
    · intro h p hp
      by_cases hd : d < 120 * 120
      · rw [if_pos hd] at h
        cases h
      · exact le_trans (not_lt.mp hd) (hmin p hp)
    · intro hall
      have : 120 * 120 ≤ d := hod ▸ hall o ho
      rw [if_neg (not_lt.mpr this)]

theorem pickOverlay_spec_witness :
    ([demoO1] ≠ [])
    ∧ (pickOverlay [] 3 4 = none
      ∧ (∀ id, pickOverlay [demoO1] 3 4 = some id →
          ∃ o ∈ [demoO1], o.id = id ∧ distSq o 3 4 < 120 * 120
            ∧ ∀ p ∈ [demoO1], distSq o 3 4 ≤ distSq p 3 4)
      ∧ (pickOverlay [demoO1] 3 4 = none ↔
          ∀ o ∈ [demoO1], 120 * 120 ≤ distSq o 3 4)) :=
  ⟨by decide, pickOverlay_spec [demoO1] 3 4 (by decide)⟩

/-- **C3 (counterexample to the claim as stated)** — an overlay whose
anchor is at Euclidean distance exactly 120 from the pointer (squared
distance `120 * 120`) is *not* selected: the source's strict comparison
`best.dist < 120` rejects it, whereas the claim asserts that a minimum
distance of exactly 120 selects the overlay. -/
theorem pickOverlay_at_threshold_not_selected :
    distSq demoFar 0 0 = 120 * 120
    ∧ pickOverlay [demoFar] 0 0 = none := by
  constructor
  · norm_num [distSq, demoFar]
  · norm_num [pickOverlay, pickLoop, pickStep, distSq, demoFar]

/-- **C8** — Hit-test tie-breaking: when overlay `oi` at index `i` attains
the minimal distance (strictly below the threshold), every earlier overlay
is strictly farther, and some later index `j` ties with the same distance,
the hit-test returns `oi.id` — the lowest tying index wins, because the
running-minimum comparison `dist < best.dist` is strict. -/
theorem pickOverlay_tie_lowest_index (ovs : List OverlayItem) (x y : ℚ)
    (i j : ℕ) (oi oj : OverlayItem)
    (hi : ovs[i]? = some oi) (hj : ovs[j]? = some oj) (hij : i < j)
    (htie : distSq oi x y = distSq oj x y)
    (hth : distSq oi x y < 120 * 120)
    (hmin : ∀ p ∈ ovs, distSq oi x y ≤ distSq p x y)
    (hfirst : ∀ k ok, k < i → ovs[k]? = some ok →
      distSq oi x y < distSq ok x y) :
    pickOverlay ovs x y = some oi.id := by
  have hne : ovs ≠ [] := by
    intro h
    rw [h] at hi
    simp at hi
  have hlen : ¬ ovs.length = 0 := by
    simpa [List.length_eq_zero] using hne
  have hpf := pickFirstMin_first x y ovs i oi hi hmin hfirst
  have hpl : pickLoop ovs x y = some (oi.id, distSq oi x y) :=
    (pickLoop_eq_pickFirstMin x y ovs).trans hpf
  rw [pickOverlay, if_neg hlen, hpl]
  exact if_pos hth

theorem pickOverlay_tie_lowest_index_witness :
    ([demoO1, demoO2][0]? = some demoO1
      ∧ [demoO1, demoO2][1]? = some demoO2
      ∧ (0 : ℕ) < 1
      ∧ distSq demoO1 3 4 = distSq demoO2 3 4
      ∧ distSq demoO1 3 4 < 120 * 120
      ∧ (∀ p ∈ [demoO1, demoO2], distSq demoO1 3 4 ≤ distSq p 3 4)
      ∧ (∀ k ok, k < 0 → [demoO1, demoO2][k]? = some ok →
          distSq demoO1 3 4 < distSq ok 3 4))
    ∧ pickOverlay [demoO1, demoO2] 3 4 = some demoO1.id := by
  have h4 : distSq demoO1 3 4 = distSq demoO2 3 4 := by
    norm_num [distSq, demoO1, demoO2]
  have h5 : distSq demoO1 3 4 < 120 * 120 := by
    norm_num [distSq, demoO1]
  have h6 : ∀ p ∈ [demoO1, demoO2], distSq demoO1 3 4 ≤ distSq p 3 4 := by
    intro p hp
    rcases List.mem_cons.mp hp with rfl | hp'
    · exact le_refl _
    · rcases List.mem_singleton.mp hp' with rfl
      norm_num [distSq, demoO1, demoO2]
  have h7 : ∀ k ok, k < 0 → [demoO1, demoO2][k]? = some ok →
      distSq demoO1 3 4 < distSq ok 3 4 := by
    intro k ok hk
    cases hk
  exact ⟨⟨rfl, rfl, Nat.zero_lt_one, h4, h5, h6, h7⟩,
    pickOverlay_tie_lowest_index [demoO1, demoO2] 3 4 0 1 demoO1 demoO2
      rfl rfl Nat.zero_lt_one h4 h5 h6 h7⟩

theorem drawOneOverlay_eq (cache : List (String × Bitmap))
    (sel : Option String) (c : Ctx) (o : OverlayItem) :
    drawOneOverlay cache sel c o
      = ⟨c.tf, c.stack, c.cmds ++ overlayCmds cache sel c.tf o⟩ := by
  by_cases h1 : (o.kind == OverlayKind.image && truthy o.src) = true
  · rcases hlk : cache.lookup o.id with _ | img
    · simp [drawOneOverlay, overlayCmds, Ctx.save, Ctx.translate, Ctx.rotate,
        Ctx.scale, Ctx.emit, Ctx.restore, h1, hlk]
    · by_cases hsel : sel = some o.id
      · simp [drawOneOverlay, overlayCmds, Ctx.save, Ctx.translate,
          Ctx.rotate, Ctx.scale, Ctx.emit, Ctx.restore, h1, hlk, hsel,
          List.append_assoc]
      · simp [drawOneOverlay, overlayCmds, Ctx.save, Ctx.translate,
          Ctx.rotate, Ctx.scale, Ctx.emit, Ctx.restore, h1, hlk, hsel,
          List.append_assoc]
  · by_cases h2 : (o.kind == OverlayKind.text && truthy o.text) = true
    · by_cases hsel : sel = some o.id
      · simp [drawOneOverlay, overlayCmds, Ctx.save, Ctx.translate,
          Ctx.rotate, Ctx.scale, Ctx.emit, Ctx.restore, h1, h2, hsel,
          List.append_assoc]
      · simp [drawOneOverlay, overlayCmds, Ctx.save, Ctx.translate,
          Ctx.rotate, Ctx.scale, Ctx.emit, Ctx.restore, h1, h2, hsel,
          List.append_assoc]
    · simp [drawOneOverlay, overlayCmds, Ctx.save, Ctx.translate, Ctx.rotate,
        Ctx.scale, Ctx.emit, Ctx.restore, h1, h2]

theorem drawOverlays_eq (cache : List (String × Bitmap))
    (sel : Option String) (c : Ctx) (ovs : List OverlayItem) :
    drawOverlays cache sel c ovs
      = ⟨c.tf, c.stack,
          c.cmds ++ ovs.flatMap (overlayCmds cache sel c.tf)⟩ := by
  induction ovs generalizing c with
  | nil =>
    cases c
    simp [drawOverlays]
  | cons o rest ih =>
    have hcons : drawOverlays cache sel c (o :: rest)
        = drawOverlays cache sel (drawOneOverlay cache sel c o) rest := by
      rw [drawOverlays, drawOverlays, List.foldl_cons]
    rw [hcons, drawOneOverlay_eq, ih]
    simp [List.append_assoc]

theorem overlayCmds_tf (cache : List (String × Bitmap)) (sel : Option String)
    (tf : List TOp) (o : OverlayItem) (cmd : DrawCmd)
    (h : cmd ∈ overlayCmds cache sel tf o) :
    cmd.tf = tf ++ [TOp.translate o.x o.y, TOp.rotate o.rotation,
      TOp.scale o.scale o.scale] := by
  simp only [overlayCmds] at h
  by_cases h1 : (o.kind == OverlayKind.image && truthy o.src) = true
  · rw [if_pos h1] at h
    rcases hlk : cache.lookup o.id with _ | img <;> rw [hlk] at h
    · cases h
    · rcases List.mem_cons.mp h with rfl | h2
      · rfl
      · by_cases hsel : sel = some o.id
        · rw [if_pos hsel] at h2
          rcases List.mem_singleton.mp h2 with rfl
          rfl
        · rw [if_neg hsel] at h2
          cases h2
  · rw [if_neg h1] at h
    by_cases h2 : (o.kind == OverlayKind.text && truthy o.text) = true
    · rw [if_pos h2] at h
      rcases List.mem_cons.mp h with rfl | h3
      · rfl
      · by_cases hsel : sel = some o.id
        · rw [if_pos hsel] at h3
          rcases List.mem_singleton.mp h3 with rfl
          rfl
        · rw [if_neg hsel] at h3
          cases h3
    · rw [if_neg h2] at h
      cases h

/-- **C6** — Paint order and transform composition: the overlay render loop
emits exactly the concatenation, in collection order, of each overlay's
own commands (so a later overlay's commands always come after — i.e. paint
on top of — an earlier one's, and no overlay's output depends on its
predecessors); the current transform and the save-stack after the loop are
exactly what they were before it (each iteration's `restore` undoes its
`save`); and every command of an overlay is issued under the local frame
`translate(position) ∘ rotate(rotation) ∘ scale(scale, scale)` composed
onto the ambient transform. -/
theorem render_overlays_spec (cache : List (String × Bitmap))
    (sel : Option String) (c : Ctx) (ovs : List OverlayItem)
    (o : OverlayItem) (cmd : DrawCmd) (ho : o ∈ ovs)
    (hcmd : cmd ∈ overlayCmds cache sel c.tf o) :
    (drawOverlays cache sel c ovs).cmds
        = c.cmds ++ ovs.flatMap (overlayCmds cache sel c.tf)
    ∧ (drawOverlays cache sel c ovs).tf = c.tf
    ∧ (drawOverlays cache sel c ovs).stack = c.stack
    ∧ cmd.tf = c.tf ++ [TOp.translate o.x o.y, TOp.rotate o.rotation,
        TOp.scale o.scale o.scale] :=
  ⟨by rw [drawOverlays_eq], by rw [drawOverlays_eq],
    by rw [drawOverlays_eq], overlayCmds_tf cache sel c.tf o cmd hcmd⟩

theorem render_overlays_spec_witness :
    (demoText ∈ [demoA, demoText]
      ∧ DrawCmd.fillText "LOL"
          [TOp.translate 300 80, TOp.rotate 0, TOp.scale 1 1] 0 0
        ∈ overlayCmds [] none (Ctx.mk [] [] []).tf demoText)
    ∧ ((drawOverlays [] none ⟨[], [], []⟩ [demoA, demoText]).cmds
        = (Ctx.mk [] [] []).cmds
          ++ [demoA, demoText].flatMap (overlayCmds [] none
              (Ctx.mk [] [] []).tf)
      ∧ (drawOverlays [] none ⟨[], [], []⟩ [demoA, demoText]).tf
          = (Ctx.mk [] [] []).tf
      ∧ (drawOverlays [] none ⟨[], [], []⟩ [demoA, demoText]).stack
          = (Ctx.mk [] [] []).stack
      ∧ (DrawCmd.fillText "LOL"
            [TOp.translate 300 80, TOp.rotate 0, TOp.scale 1 1] 0 0).tf
          = (Ctx.mk [] [] []).tf ++ [TOp.translate demoText.x demoText.y,
              TOp.rotate demoText.rotation,
              TOp.scale demoText.scale demoText.scale]) :=
  ⟨⟨by decide, by decide⟩,
    render_overlays_spec [] none ⟨[], [], []⟩ [demoA, demoText] demoText
      (DrawCmd.fillText "LOL"
        [TOp.translate 300 80, TOp.rotate 0, TOp.scale 1 1] 0 0)
      (by decide) (by decide)⟩

theorem distSq_congr (x y : ℚ) (o o' : OverlayItem) (hx : o'.x = o.x)
    (hy : o'.y = o.y) : distSq o' x y = distSq o x y := by
  unfold distSq
  rw [hx, hy]

theorem pickStep_congr (x y : ℚ) (best : Option (String × ℚ))
    (o o' : OverlayItem) (hid : o'.id = o.id) (hx : o'.x = o.x)
    (hy : o'.y = o.y) : pickStep x y best o' = pickStep x y best o := by
  unfold pickStep
  rw [distSq_congr x y o o' hx hy, hid]

theorem pickOverlay_pos_congr (l1 l2 : List OverlayItem) (x y : ℚ)
    (o o' : OverlayItem) (hid : o'.id = o.id) (hx : o'.x = o.x)
    (hy : o'.y = o.y) :
    pickOverlay (l1 ++ o' :: l2) x y = pickOverlay (l1 ++ o :: l2) x y := by
  have hfold : List.foldl (pickStep x y) none (l1 ++ o' :: l2)
      = List.foldl (pickStep x y) none (l1 ++ o :: l2) := by
    rw [List.foldl_append, List.foldl_append, List.foldl_cons,
      List.foldl_cons, pickStep_congr x y _ o o' hid hx hy]
  have hlen : (l1 ++ o' :: l2).length = (l1 ++ o :: l2).length := by
    simp
  rw [pickOverlay, pickOverlay, pickLoop, pickLoop, hfold, hlen]

/-- **C10** — Empty-text overlays are invisible but present: a text-kind
overlay whose `text` is absent or the empty string fails the truthiness
test `o.text` of the render loop, so the loop emits no command for it —
neither the glyphs nor the selection outline, even when it is the current
selection (the outline lives inside the same guarded branch); the overlay
itself is untouched by rendering, and the hit-test treats it exactly like
any overlay with the same `id` and `position` — `pickOverlay` reads
nothing else of it. -/
theorem empty_text_invisible (cache : List (String × Bitmap))
    (sel : Option String) (c : Ctx) (o : OverlayItem)
    (hkind : o.kind = OverlayKind.text)
    (htext : o.text = none ∨ o.text = some "") :
    overlayCmds cache sel c.tf o = []
    ∧ (drawOneOverlay cache sel c o).cmds = c.cmds
    ∧ ∀ (l1 l2 : List OverlayItem) (x y : ℚ) (o' : OverlayItem),
        o'.id = o.id → o'.x = o.x → o'.y = o.y →
        pickOverlay (l1 ++ o :: l2) x y
          = pickOverlay (l1 ++ o' :: l2) x y := by
  have htr : truthy o.text = false := by
    rcases htext with h | h <;> rw [h] <;> rfl
  have hcmds : overlayCmds cache sel c.tf o = [] := by
    simp [overlayCmds, hkind, htr]
  refine ⟨hcmds, ?_, ?_⟩
  · rw [drawOneOverlay_eq, hcmds]
    simp
  · intro l1 l2 x y o' hid hx hy
    exact (pickOverlay_pos_congr l1 l2 x y o o' hid hx hy).symm

theorem empty_text_invisible_witness :
    (demoEmptyText.kind = OverlayKind.text
      ∧ (demoEmptyText.text = none ∨ demoEmptyText.text = some ""))
    ∧ (overlayCmds [] (some "e") (Ctx.mk [] [] []).tf demoEmptyText = []
      ∧ (drawOneOverlay [] (some "e") ⟨[], [], []⟩ demoEmptyText).cmds
          = (Ctx.mk [] [] []).cmds
      ∧ ∀ (l1 l2 : List OverlayItem) (x y : ℚ) (o' : OverlayItem),
          o'.id = demoEmptyText.id → o'.x = demoEmptyText.x →
          o'.y = demoEmptyText.y →
          pickOverlay (l1 ++ demoEmptyText :: l2) x y
            = pickOverlay (l1 ++ o' :: l2) x y) :=
  ⟨⟨by decide, Or.inr (by decide)⟩,
    empty_text_invisible [] (some "e") ⟨[], [], []⟩ demoEmptyText
      (by decide) (Or.inr (by decide))⟩

theorem zoomOut_ge (s : ℚ) : 2/10 ≤ zoomOut s := by
  rw [zoomOut, clamp_eq]
  exact le_max_left _ _

theorem zoomOut_le4 (s : ℚ) : zoomOut s ≤ 4 := by
  rw [zoomOut, clamp_eq]
  exact max_le (by norm_num) (min_le_left _ _)

theorem zoomOut_le_mul (s : ℚ) : zoomOut s ≤ max (2/10) (s * (92/100)) := by
  rw [zoomOut, clamp_eq]
  exact max_le_max (le_refl _) (min_le_right _ _)

theorem zoomOut_iter_le (k : ℕ) (s : ℚ) :
    zoomOut^[k] s ≤ max (2/10) (s * (92/100) ^ k) := by
  induction k generalizing s with
  | zero =>
    rw [Function.iterate_zero_apply, pow_zero, mul_one]
    exact le_max_right _ _
  | succ k ih =>
    rw [Function.iterate_succ_apply]
    calc zoomOut^[k] (zoomOut s)
        ≤ max (2/10) ((zoomOut s) * (92/100) ^ k) := ih (zoomOut s)
      _ ≤ max (2/10) ((max (2/10) (s * (92/100))) * (92/100) ^ k) :=
          max_le_max (le_refl _) (mul_le_mul_of_nonneg_right
            (zoomOut_le_mul s) (by positivity))
      _ = max (2/10) (max ((2/10) * (92/100) ^ k)
            (s * (92/100) * (92/100) ^ k)) := by
          rw [max_mul_of_nonneg _ _ (by positivity : (0:ℚ) ≤ (92/100) ^ k)]
      _ ≤ max (2/10) (s * (92/100) ^ (k + 1)) := by
          apply max_le (le_max_left _ _)
          apply max_le
          · exact le_trans (by
              have hpow : ((92:ℚ)/100) ^ k ≤ 1 :=
                pow_le_one₀ (by norm_num) (by norm_num)
              nlinarith) (le_max_left _ _)
          · rw [pow_succ]
            exact le_of_eq (by ring) |>.trans (le_max_right _ _)

theorem zoomOut_fix : zoomOut (2/10) = 2/10 := by
  norm_num [zoomOut, clamp, jmax, jmin]

theorem zoomOut_iter_fix (k : ℕ) : zoomOut^[k] (2/10) = 2/10 := by
  induction k with
  | zero => rfl
  | succ k ih => rw [Function.iterate_succ_apply, zoomOut_fix, ih]

theorem zoomOut_iter_ge (k : ℕ) (s : ℚ) (hk : 1 ≤ k) :
    2/10 ≤ zoomOut^[k] s := by
  obtain ⟨j, rfl⟩ := le_iff_exists_add.mp hk
  rw [Function.iterate_add_apply, Function.iterate_one]
  exact zoomOut_ge _

theorem zoomOut_37 (s : ℚ) : zoomOut^[37] s = 2/10 := by
  have h1 : zoomOut^[37] s = zoomOut^[36] (zoomOut s) :=
    Function.iterate_succ_apply zoomOut 36 s
  have h2 := zoomOut_iter_le 36 (zoomOut s)
  have h3 : zoomOut s * (92/100) ^ 36 ≤ 4 * (92/100) ^ 36 :=
    mul_le_mul_of_nonneg_right (zoomOut_le4 s) (by positivity)
  have hkey : (4 : ℚ) * (92/100) ^ 36 < 2/10 := by norm_num
  have h4 : zoomOut^[37] s ≤ 2/10 := by
    rw [h1]
    exact h2.trans (max_le (le_refl _) (h3.trans hkey.le))
  exact le_antisymm h4 (zoomOut_iter_ge 37 s (by norm_num))

theorem zoomOut_conv (n : ℕ) (s : ℚ) (h : 37 ≤ n) :
    zoomOut^[n] s = 2/10 := by
  obtain ⟨k, rfl⟩ := le_iff_exists_add.mp h
  rw [add_comm, Function.iterate_add_apply, zoomOut_37, zoomOut_iter_fix]

theorem zoomIn_ge (s : ℚ) : 2/10 ≤ zoomIn s := by
  rw [zoomIn, clamp_eq]
  exact le_max_left _ _

theorem zoomIn_le4 (s : ℚ) : zoomIn s ≤ 4 := by
  rw [zoomIn, clamp_eq]
  exact max_le (by norm_num) (min_le_left _ _)

theorem zoomIn_ge_mul (s : ℚ) : min 4 (s * (108/100)) ≤ zoomIn s := by
  rw [zoomIn, clamp_eq]
  exact le_max_right _ _

theorem zoomIn_iter_ge_pow (k : ℕ) (s : ℚ) :
    min 4 (s * (108/100) ^ k) ≤ zoomIn^[k] s := by
  induction k generalizing s with
  | zero =>
    rw [Function.iterate_zero_apply, pow_zero, mul_one]
    exact min_le_right _ _
  | succ k ih =>
    rw [Function.iterate_succ_apply]
    have hp : (1 : ℚ) ≤ (108/100) ^ k := one_le_pow₀ (by norm_num)
    have h4k : (4 : ℚ) ≤ 4 * (108/100) ^ k := by nlinarith
    have hmulsh : s * (108/100 : ℚ) ^ (k + 1)
        = s * (108/100) * (108/100) ^ k := by ring
    calc min 4 (s * (108/100) ^ (k + 1))
        = min (min 4 (4 * (108/100) ^ k))
            (s * (108/100) * (108/100) ^ k) := by
          rw [min_eq_left h4k, hmulsh]
      _ = min 4 (min (4 * (108/100) ^ k)
            (s * (108/100) * (108/100) ^ k)) := (min_assoc _ _ _)
      _ = min 4 ((min 4 (s * (108/100))) * (108/100) ^ k) := by
          rw [min_mul_of_nonneg _ _ (by positivity : (0:ℚ) ≤ (108/100) ^ k)]
      _ ≤ min 4 ((zoomIn s) * (108/100) ^ k) :=
          min_le_min (le_refl _) (mul_le_mul_of_nonneg_right
            (zoomIn_ge_mul s) (by positivity))
      _ ≤ zoomIn^[k] (zoomIn s) := ih (zoomIn s)

theorem zoomIn_fix : zoomIn 4 = 4 := by
  norm_num [zoomIn, clamp, jmax, jmin]

theorem zoomIn_iter_fix (k : ℕ) : zoomIn^[k] (4 : ℚ) = 4 := by
  induction k with
  | zero => rfl
  | succ k ih => rw [Function.iterate_succ_apply, zoomIn_fix, ih]

theorem zoomIn_iter_le4 (k : ℕ) (s : ℚ) (hk : 1 ≤ k) :
    zoomIn^[k] s ≤ 4 := by
  obtain ⟨j, rfl⟩ := le_iff_exists_add.mp hk
  rw [Function.iterate_add_apply, Function.iterate_one]
  exact zoomIn_le4 _

theorem zoomIn_40 (s : ℚ) : zoomIn^[40] s = 4 := by
  have h1 : zoomIn^[40] s = zoomIn^[39] (zoomIn s) :=
    Function.iterate_succ_apply zoomIn 39 s
  have h2 := zoomIn_iter_ge_pow 39 (zoomIn s)
  have hkey : (4 : ℚ) ≤ (2/10) * (108/100) ^ 39 := by norm_num
  have h3 : (2/10) * (108/100) ^ 39 ≤ zoomIn s * (108/100) ^ 39 :=
    mul_le_mul_of_nonneg_right (zoomIn_ge s) (by positivity)
  have h4 : (4 : ℚ) ≤ zoomIn^[40] s := by
    rw [h1]
    exact (le_min (le_refl _) (hkey.trans h3)).trans h2
  exact le_antisymm (zoomIn_iter_le4 40 s (by norm_num)) h4

theorem zoomIn_conv (n : ℕ) (s : ℚ) (h : 40 ≤ n) :
    zoomIn^[n] s = 4 := by
  obtain ⟨k, rfl⟩ := le_iff_exists_add.mp h
  rw [add_comm, Function.iterate_add_apply, zoomIn_40, zoomIn_iter_fix]

theorem onWheel_noShift_map (sel : String) (hsel : sel ≠ "") (dY : ℚ)
    (ovs : List OverlayItem) :
    onWheel (some sel) false dY ovs
      = ovs.map (fun o => if o.id = sel then
          { o with scale := clamp (o.scale *
              (if 0 < jsign dY then 92/100 else 108/100)) (2/10) 4 }
        else o) := by
  have hbody : onWheel (some sel) false dY ovs
      = if sel = "" then ovs
        else ovs.map (fun o =>
          if o.id ≠ sel then o
          else { o with scale := clamp (o.scale *
              (if 0 < jsign dY then 92/100 else 108/100)) (2/10) 4 }) := rfl
  rw [hbody, if_neg hsel]
  apply List.map_congr_left
  intro o _
  by_cases ho : o.id = sel
  · rw [if_neg (not_not_intro ho), if_pos ho]
  · rw [if_pos ho, if_neg ho]

theorem onWheel_zoomOut_map (sel : String) (hsel : sel ≠ "")
    (ovs : List OverlayItem) :
    onWheel (some sel) false 1 ovs
      = ovs.map (fun o => if o.id = sel then
          { o with scale := zoomOut o.scale } else o) := by
  rw [onWheel_noShift_map sel hsel 1]
  have h1 : (0 < jsign (1 : ℚ)) = True := eq_true (by norm_num [jsign])
  simp only [h1, if_true]
  rfl

theorem onWheel_zoomIn_map (sel : String) (hsel : sel ≠ "")
    (ovs : List OverlayItem) :
    onWheel (some sel) false (-1) ovs
      = ovs.map (fun o => if o.id = sel then
          { o with scale := zoomIn o.scale } else o) := by
  rw [onWheel_noShift_map sel hsel (-1)]
  have h1 : (0 < jsign (-1 : ℚ)) = False := eq_false (by norm_num [jsign])
  simp only [h1, if_false]
  rfl

theorem wheel_iterate_out (sel : String) (hsel : sel ≠ "") (n : ℕ)
    (ovs : List OverlayItem) :
    (fun l => onWheel (some sel) false 1 l)^[n] ovs
      = ovs.map (fun o => if o.id = sel then
          { o with scale := zoomOut^[n] o.scale } else o) := by
  induction n generalizing ovs with
  | zero =>
    rw [Function.iterate_zero_apply]
    have hid : ∀ o ∈ ovs, (if o.id = sel then
        { o with scale := zoomOut^[0] o.scale } else o) = id o := by
      intro o _
      split <;> rfl
    rw [List.map_congr_left hid, List.map_id]
  | succ n ih =>
    rw [Function.iterate_succ_apply']
    show onWheel (some sel) false 1
      ((fun l => onWheel (some sel) false 1 l)^[n] ovs) = _
    rw [ih ovs, onWheel_zoomOut_map sel hsel, List.map_map]
    apply List.map_congr_left
    intro o _
    by_cases ho : o.id = sel
    · simp only [Function.comp_apply, if_pos ho]
      rw [Function.iterate_succ_apply']
    · simp only [Function.comp_apply, if_neg ho]

theorem wheel_iterate_in (sel : String) (hsel : sel ≠ "") (n : ℕ)
    (ovs : List OverlayItem) :
    (fun l => onWheel (some sel) false (-1) l)^[n] ovs
      = ovs.map (fun o => if o.id = sel then
          { o with scale := zoomIn^[n] o.scale } else o) := by
  induction n generalizing ovs with
  | zero =>
    rw [Function.iterate_zero_apply]
    have hid : ∀ o ∈ ovs, (if o.id = sel then
        { o with scale := zoomIn^[0] o.scale } else o) = id o := by
      intro o _
      split <;> rfl
    rw [List.map_congr_left hid, List.map_id]
  | succ n ih =>
    rw [Function.iterate_succ_apply']
    show onWheel (some sel) false (-1)
      ((fun l => onWheel (some sel) false (-1) l)^[n] ovs) = _
    rw [ih ovs, onWheel_zoomIn_map sel hsel, List.map_map]
    apply List.map_congr_left
    intro o _
    by_cases ho : o.id = sel
    · simp only [Function.comp_apply, if_pos ho]
      rw [Function.iterate_succ_apply']
    · simp only [Function.comp_apply, if_neg ho]

/-- **C5** — Wheel scaling: a non-modifier wheel event with a truthy
selection maps the selected overlay's scale to
`clamp(scale * (sign(deltaY) > 0 ? 0.92 : 1.08), 0.2, 4)` and returns every
other overlay unchanged at its index; iterating zoom-out events keeps the
selected overlay's scale at or above `0.2` from the first tick on and
pins it to exactly `0.2` from the 37th tick on; iterating zoom-in events
keeps it at or below `4` from the first tick on and pins it to exactly `4`
from the 40th tick on. -/
theorem wheel_scale_spec (sel : String) (dY : ℚ) (ovs : List OverlayItem)
    (i : ℕ) (o : OverlayItem) (nOut nIn mOut mIn : ℕ)
    (hsel : sel ≠ "") (ho : ovs[i]? = some o)
    (hmo : 1 ≤ mOut) (hmi : 1 ≤ mIn) (hno : 37 ≤ nOut) (hni : 40 ≤ nIn) :
    (onWheel (some sel) false dY ovs)[i]?
        = some (if o.id = sel then
            { o with scale := clamp (o.scale *
                (if 0 < jsign dY then 92/100 else 108/100)) (2/10) 4 }
          else o)
    ∧ ((fun l => onWheel (some sel) false 1 l)^[mOut] ovs)[i]?
        = some (if o.id = sel then
            { o with scale := zoomOut^[mOut] o.scale } else o)
    ∧ 2/10 ≤ zoomOut^[mOut] o.scale
    ∧ zoomOut^[nOut] o.scale = 2/10
    ∧ ((fun l => onWheel (some sel) false (-1) l)^[mIn] ovs)[i]?
        = some (if o.id = sel then
            { o with scale := zoomIn^[mIn] o.scale } else o)
    ∧ zoomIn^[mIn] o.scale ≤ 4
    ∧ zoomIn^[nIn] o.scale = 4 := by
  refine ⟨?_, ?_, zoomOut_iter_ge mOut o.scale hmo,
    zoomOut_conv nOut o.scale hno, ?_,
    zoomIn_iter_le4 mIn o.scale hmi, zoomIn_conv nIn o.scale hni⟩
  · rw [onWheel_noShift_map sel hsel dY, List.getElem?_map, ho]
    rfl
  · rw [wheel_iterate_out sel hsel mOut, List.getElem?_map, ho]
    rfl
  · rw [wheel_iterate_in sel hsel mIn, List.getElem?_map, ho]
    rfl

theorem wheel_scale_spec_witness :
    ("a" ≠ "" ∧ [demoA][0]? = some demoA ∧ (1 : ℕ) ≤ 1 ∧ (37 : ℕ) ≤ 37
      ∧ (40 : ℕ) ≤ 40)
    ∧ ((onWheel (some "a") false 2 [demoA])[0]?
          = some (if demoA.id = "a" then
              { demoA with scale := clamp (demoA.scale *
                  (if 0 < jsign 2 then 92/100 else 108/100)) (2/10) 4 }
            else demoA)
      ∧ ((fun l => onWheel (some "a") false 1 l)^[1] [demoA])[0]?
          = some (if demoA.id = "a" then
              { demoA with scale := zoomOut^[1] demoA.scale } else demoA)
      ∧ 2/10 ≤ zoomOut^[1] demoA.scale
      ∧ zoomOut^[37] demoA.scale = 2/10
      ∧ ((fun l => onWheel (some "a") false (-1) l)^[1] [demoA])[0]?
          = some (if demoA.id = "a" then
              { demoA with scale := zoomIn^[1] demoA.scale } else demoA)
      ∧ zoomIn^[1] demoA.scale ≤ 4
      ∧ zoomIn^[40] demoA.scale = 4) :=
  ⟨⟨by decide, rfl, by decide, by decide, by decide⟩,
    wheel_scale_spec "a" 2 [demoA] 0 demoA 37 40 1 1 (by decide) rfl
      (by decide) (by decide) (by decide) (by decide)⟩
